import Mathlib

/-
Shallow embedding of `poetry/poetry.py`: the manifest resolution and
configuration composition engine of the Poetry core (class `Poetry`).

Modelling conventions:
* A parsed TOML document is a `TomlVal`; tables are association lists that
  keep declaration order, exactly like Python dicts preserve insertion order.
* Python `in` on dict/str/list, indexing `d[k]`, and `.get` are embedded by
  `pyIn`, `getItem`, `dictGet` with the corresponding Python semantics
  (notably: `in` on a string is substring containment, and indexing a string
  with a string raises `TypeError`).
* Exceptions are embedded as `Except PoetryError`.
* External collaborators that are not part of the source file (the JSON-schema
  validator, the version-constraint evaluator combined with the environment
  marker provider, and `Config.merge`) are parameters of the embedded
  functions, as the spec treats them as black boxes.
* The filesystem (lock files, configuration files) is embedded explicitly:
  an association list path ↦ contents for the lock directory, and
  `Option TomlVal` for each optional configuration file (`none` = absent).
-/

set_option autoImplicit false

namespace PoetrySpec

/-- TOML-like values: scalars are collapsed into `str` (their structure is
irrelevant to the embedded code, which only distinguishes scalars, arrays and
tables). -/
inductive TomlVal where
  | str : String → TomlVal
  | list : List TomlVal → TomlVal
  | table : List (String × TomlVal) → TomlVal

/-- Errors raised by the embedded code. `keyError` / `typeError` stand for the
Python `KeyError` / `TypeError` (and `AttributeError`) exceptions. -/
inductive PoetryError where
  | manifestNotFound
  | sectionMissing
  | manifestInvalid (message : String)
  | keyError
  | typeError
deriving DecidableEq

/-- First-match lookup in a table, Python dict indexing on association lists. -/
def alookupT : List (String × TomlVal) → String → Option TomlVal
  | [], _ => none
  | kv :: rest, key => if kv.1 == key then some kv.2 else alookupT rest key

/-- `p` is a prefix of `l`, on character lists. -/
def charsStartWith : List Char → List Char → Bool
  | [], _ => true
  | _ :: _, [] => false
  | a :: p, b :: l => a == b && charsStartWith p l

/-- `p` occurs as a contiguous sublist of `l`. -/
def charsContain (p : List Char) : List Char → Bool
  | [] => p.isEmpty
  | b :: l => charsStartWith p (b :: l) || charsContain p l

/-- Python `pat in s` for strings: substring containment. -/
def strContains (s pat : String) : Bool :=
  charsContain pat.toList s.toList

/-- Python `key in v`: key membership for tables, substring containment for
strings, element equality for arrays. -/
def pyIn (key : String) : TomlVal → Bool
  | .str s => strContains s key
  | .list vs => vs.any (fun v => match v with | .str s => s == key | _ => false)
  | .table kvs => kvs.any (fun kv => kv.1 == key)

/-- Python `v[key]`: table lookup (raising `KeyError` when absent), `TypeError`
when `v` is not a table. -/
def getItem (v : TomlVal) (key : String) : Except PoetryError TomlVal :=
  match v with
  | .table kvs =>
    match alookupT kvs key with
    | some x => .ok x
    | none => .error .keyError
  | _ => .error .typeError

/-- Python `v.get(key, default)` on a dict; `AttributeError` (embedded as
`typeError`) when `v` is not a table. -/
def dictGet (v : TomlVal) (key : String) (default : TomlVal) :
    Except PoetryError TomlVal :=
  match v with
  | .table kvs => .ok ((alookupT kvs key).getD default)
  | _ => .error .typeError

/-- Python `v.get(key)` on a dict (default `None`). -/
def dictGetNone (v : TomlVal) (key : String) : Except PoetryError (Option TomlVal) :=
  match v with
  | .table kvs => .ok (alookupT kvs key)
  | _ => .error .typeError

/-- The idiom `if key in v: use v[key]` (lines such as `"readme" in local_config`):
returns `none` when the membership test fails, otherwise indexes. -/
def memberThenGet (v : TomlVal) (key : String) : Except PoetryError (Option TomlVal) :=
  if pyIn key v then (getItem v key).map some
  else .ok none

/-- Python `v.items()`: the entries of a table, `AttributeError` (embedded as
`typeError`) otherwise. -/
def itemsOf (v : TomlVal) : Except PoetryError (List (String × TomlVal)) :=
  match v with
  | .table kvs => .ok kvs
  | _ => .error .typeError

/-- Modelled from the spec: a `Dependency` (class not under src/) carries a
name, a version constraint, a category (`"main"` by default or `"dev"`) and
the back-reference list `in_extras` of extra names. The constructor stores the
given name, and extras matching is by exact name. -/
structure Dependency where
  name : String
  constraint : TomlVal
  category : String
  in_extras : List String

/-- The in-memory package model built by `Poetry.create`. `extras` is the
non-owning association table extra name ↦ indices into `requires` (the Python
object graph aliases the very `Dependency` objects of `requires` inside
`extras`; indices embed that aliasing with value semantics). Metadata fields
that no theorem needs (`license`, resolved through the external SPDX table)
are not modelled. -/
structure Package where
  name : TomlVal := .str ""
  version : TomlVal := .str ""
  authors : TomlVal := .list []
  maintainers : TomlVal := .list []
  description : TomlVal := .str ""
  homepage : Option TomlVal := none
  repository_url : Option TomlVal := none
  documentation_url : Option TomlVal := none
  keywords : TomlVal := .list []
  classifiers : TomlVal := .list []
  readme : Option TomlVal := none
  platformVal : Option TomlVal := none
  python_versions : Option TomlVal := none
  requires : List Dependency := []
  extras : List (String × List Nat) := []
  buildVal : Option TomlVal := none
  includeVal : Option TomlVal := none
  excludeVal : Option TomlVal := none
  packagesVal : Option TomlVal := none
  custom_urls : Option TomlVal := none

/-- Modelled from the spec: `ProjectPackage.add_dependency` (class not under
src/) appends a Dependency with the given name, constraint and category to
`requires`; a fresh dependency belongs to no extra yet. -/
def addDependency (pkg : Package) (name : String) (constraint : TomlVal)
    (category : String) : Package :=
  { pkg with requires := pkg.requires ++ [⟨name, constraint, category, []⟩] }

/-! ## Main dependency table (`poetry.py` lines 114-126) -/

/-- Python `str.lower()` (characterwise, which matches it on ASCII names such
as the reserved `python`). -/
def lowerStr (s : String) : String :=
  String.mk (s.toList.map Char.toLower)

/-- One entry of the `dependencies` table: the reserved name `python`
(case-insensitively) sets `python_versions`; a list-valued constraint adds one
`"main"` dependency per element; a scalar adds exactly one. -/
def decodeMainEntry (pkg : Package) (entry : String × TomlVal) : Package :=
  if lowerStr entry.1 == "python" then
    { pkg with python_versions := some entry.2 }
  else
    match entry.2 with
    | .list cs => cs.foldl (fun p c => addDependency p entry.1 c "main") pkg
    | c => addDependency pkg entry.1 c "main"

/-- The `for name, constraint in local_config["dependencies"].items()` loop. -/
def addMainDeps (pkg : Package) (deps : List (String × TomlVal)) : Package :=
  deps.foldl decodeMainEntry pkg

/-! ## Dev-dependency table (`poetry.py` lines 128-139) -/

/-- The body of the inner dev-dependency loop: `if 'python' in _constraint`
(Python `in`, hence substring containment on a scalar string), extraction of
the sub-constraint (`TypeError` on a non-table), filtering by the abstract
constraint evaluator `allows` (the black-box composition of
`parse_single_constraint` with `.allows(env_python_version)` for the host
Python version from the environment marker provider), then
`add_dependency(..., category="dev")`. -/
def decodeDevStep (allows : TomlVal → Bool) (name : String) (pkg : Package)
    (x : TomlVal) : Except PoetryError Package :=
  if pyIn "python" x then
    match getItem x "python" with
    | .error e => .error e
    | .ok v =>
      if allows v then .ok (addDependency pkg name x "dev")
      else .ok pkg
  else .ok (addDependency pkg name x "dev")

/-- The inner `for _constraint in constraint` loop. -/
def devLoop (allows : TomlVal → Bool) (name : String) :
    Package → List TomlVal → Except PoetryError Package
  | pkg, [] => .ok pkg
  | pkg, x :: rest =>
    match decodeDevStep allows name pkg x with
    | .error e => .error e
    | .ok p => devLoop allows name p rest

/-- The list of constraints an entry expands to: a list value yields its
elements, anything else is a singleton (the
`if not isinstance(constraint, list)` wrap, and the list/scalar split of the
main dependency loop). -/
def constraintList : TomlVal → List TomlVal
  | .list l => l
  | c => [c]

/-- One entry of the `dev-dependencies` table. -/
def decodeDevEntry (allows : TomlVal → Bool) (pkg : Package) (name : String)
    (c : TomlVal) : Except PoetryError Package :=
  devLoop allows name pkg (constraintList c)

/-- Which expanded constraints survive the python sub-constraint filter: a
table whose `python` key the evaluator rejects is dropped, everything else is
kept (specification-side predicate used to state the dev-dependency theorems). -/
def devKeeps (allows : TomlVal → Bool) : TomlVal → Bool
  | .table kvs =>
    match alookupT kvs "python" with
    | some v => allows v
    | none => true
  | _ => true

/-- An expanded constraint on which the dev-dependency loop cannot raise: any
table, or a non-table that Python's `in` does not see as containing
`"python"`. -/
def devElemOk : TomlVal → Bool
  | .table _ => true
  | x => !(pyIn "python" x)

/-! ## Extras (`poetry.py` lines 141-154) -/

/-- `package.extras[extra_name] = []`: dict assignment on the association
table (overwrite the existing key, otherwise append a new entry). -/
def setExtra (extras : List (String × List Nat)) (name : String) :
    List (String × List Nat) :=
  if extras.any (fun e => e.1 == name) then
    extras.map (fun e => if e.1 == name then (e.1, []) else e)
  else extras ++ [(name, [])]

/-- `package.extras[extra_name].append(dep)`, with the dependency recorded by
its index into `requires`. -/
def appendExtra (extras : List (String × List Nat)) (name : String) (i : Nat) :
    List (String × List Nat) :=
  extras.map (fun e => if e.1 == name then (e.1, e.2 ++ [i]) else e)

/-- The `for dep in package.requires: if dep.name == req.name: ...; break`
loop: index of the first dependency with the given name, if any. -/
def findMatchIdx (requires : List Dependency) (r : String) : Option Nat :=
  match requires with
  | [] => none
  | d :: rest => if d.name == r then some 0 else (findMatchIdx rest r).map (· + 1)

/-- Replace the element at index `i` (no-op when out of range). -/
def modifyIdx {α : Type} (l : List α) (i : Nat) (f : α → α) : List α :=
  match l, i with
  | [], _ => []
  | a :: t, 0 => f a :: t
  | a :: t, n + 1 => a :: modifyIdx t n f

/-- The body of the `for req in requirements` loop: wrap the requirement name
in a wildcard `Dependency` and look for the first dependency of `requires`
with that exact name; on a match, append the extra's name to its `in_extras`
and the dependency itself (by index) to the extra's list, then `break`; with
no match nothing happens. -/
def decodeOneReq (extraName : String) (pkg : Package) (r : String) : Package :=
  match findMatchIdx pkg.requires r with
  | none => pkg
  | some i =>
    { pkg with
      requires := modifyIdx pkg.requires i
        (fun d => { d with in_extras := d.in_extras ++ [extraName] }),
      extras := appendExtra pkg.extras extraName i }

/-- One entry of the `extras` table: initialize `extras[extra_name]` to `[]`,
then process each listed requirement name in declared order. -/
def decodeExtra (pkg : Package) (extraName : String) (reqs : List String) :
    Package :=
  reqs.foldl (decodeOneReq extraName) { pkg with extras := setExtra pkg.extras extraName }

/-- The `for extra_name, requirements in extras.items()` loop. -/
def decodeExtras (pkg : Package) (extras : List (String × List String)) : Package :=
  extras.foldl (fun p e => decodeExtra p e.1 e.2) pkg

/-- Indices (into the given `requires`) of the first match of each listed
requirement name, in declared order; unmatched names contribute nothing
(specification-side function used to state the extras theorems). -/
def matchedIdxs (requires : List Dependency) (reqs : List String) : List Nat :=
  reqs.filterMap (findMatchIdx requires)

/-- `requires` after an extra named `extraName` has recorded the matches
`idxs`: the dependency at index `i` gains one `extraName` entry per occurrence
of `i` in `idxs` (the parameter `k` is the index of the first element of the
remaining list). -/
def enrichFrom (extraName : String) (idxs : List Nat) :
    Nat → List Dependency → List Dependency
  | _, [] => []
  | k, d :: rest =>
    { d with in_extras := d.in_extras ++ List.replicate (idxs.count k) extraName }
      :: enrichFrom extraName idxs (k + 1) rest

/-! ## Lock-file migration (`poetry.py` lines 172-180) -/

/-- The lock directory: an association list path ↦ file contents. -/
def fsLookup : List (String × String) → String → Option String
  | [], _ => none
  | kv :: rest, p => if kv.1 == p then some kv.2 else fsLookup rest p

/-- Remove a path from the directory. -/
def fsErase : List (String × String) → String → List (String × String)
  | [], _ => []
  | kv :: rest, p => if kv.1 == p then fsErase rest p else kv :: fsErase rest p

/-- Moving `pyproject.lock` to `poetry.lock` when the canonical lock file does
not exist but the legacy one does; `shutil.move` is embedded as erase + insert. -/
def migrateLock (fs : List (String × String)) : List (String × String) :=
  match fsLookup fs "poetry.lock" with
  | some _ => fs
  | none =>
    match fsLookup fs "pyproject.lock" with
    | some contents => ("poetry.lock", contents) :: fsErase fs "pyproject.lock"
    | none => fs

/-! ## Configuration composition (`poetry.py` lines 182-195) -/

/-- `Config()` then `config.merge(...)` for each of the global settings file,
the project-local settings file and the global authentication file, each only
when it exists on disk (`none` = absent). The merge operation itself
(`Config.merge`, not under src/) is a black-box parameter. -/
def composeConfig {Config : Type} (merge : Config → TomlVal → Config)
    (config : Config) (globalConfigFile localConfigFile authConfigFile : Option TomlVal) :
    Config :=
  let config := match globalConfigFile with
    | some t => merge config t
    | none => config
  let config := match localConfigFile with
    | some t => merge config t
    | none => config
  match authConfigFile with
  | some t => merge config t
  | none => config

/-! ## Manifest locator (`poetry.py` lines 219-235) -/

/-- The fixed manifest filename. -/
def manifestName : String := "pyproject.toml"

/-- `candidates = [Path(cwd)] + list(Path(cwd).parents)`: the starting
directory followed by its ancestors child-to-root, ending at the root `[]`
(a directory is its list of components from the root). -/
def candidates : List String → List (List String)
  | [] => [[]]
  | a :: rest => (candidates rest).map (fun p => a :: p) ++ [[]]

/-- The `for path in candidates` loop with its `else: raise` clause: return
`path / "pyproject.toml"` for the first candidate directory where that file
exists (`fs` is the list of existing file paths). -/
def locateLoop (fs : List (List String)) :
    List (List String) → Except PoetryError (List String)
  | [] => .error .manifestNotFound
  | p :: rest =>
    if p ++ [manifestName] ∈ fs then .ok (p ++ [manifestName])
    else locateLoop fs rest

/-- `Poetry.locate`. -/
def locate (fs : List (List String)) (cwd : List String) :
    Except PoetryError (List String) :=
  locateLoop fs (candidates cwd)

/-! ## Repository credential resolver (`poetry.py` lines 199-217) -/

/-- Errors of `create_legacy_repository`: `Missing [name] in source.` and
`Unsupported source specified`. -/
inductive SourceError where
  | unsupportedSource
  | missingSourceName
deriving DecidableEq

/-- A basic-auth credential for a repository (`repositories.auth.Auth`). -/
structure Auth where
  url : String
  username : String
  password : String

/-- A repository handle, possibly carrying credentials. -/
structure LegacyRepository where
  name : String
  url : String
  auth : Option Auth

/-- A source descriptor is a string-valued table; first-match lookup. -/
def alookupS : List (String × String) → String → Option String
  | [], _ => none
  | kv :: rest, key => if kv.1 == key then some kv.2 else alookupS rest key

/-- Modelled from the spec: `get_http_basic_auth` (helper not under src/)
looks up the stored username/password pair for `name` in the EffectiveConfig's
HTTP-basic-auth section, `none` when no credentials are stored. The section is
embedded as an association list name ↦ (username, password). -/
def get_http_basic_auth : List (String × (String × String)) → String →
    Option (String × String)
  | [], _ => none
  | kv :: rest, name =>
    if kv.1 == name then some kv.2 else get_http_basic_auth rest name

/-- `Poetry.create_legacy_repository`: `"url" in source` / `"name" not in
source` membership checks followed by indexing are embedded as single lookups
on the descriptor table. -/
def create_legacy_repository (httpBasic : List (String × (String × String)))
    (source : List (String × String)) : Except SourceError LegacyRepository :=
  match alookupS source "url" with
  | none => .error .unsupportedSource
  | some url =>
    match alookupS source "name" with
    | none => .error .missingSourceName
    | some name =>
      match get_http_basic_auth httpBasic name with
      | none => .ok { name := name, url := url, auth := none }
      | some credentials =>
        .ok { name := name, url := url,
              auth := some { url := url, username := credentials.1,
                             password := credentials.2 } }

/-! ## Section extraction and validation (`poetry.py` lines 63-81, 237-250) -/

/-- Lines 68-72: `if "tool" not in local_config or "poetry" not in
local_config["tool"]: raise` (short-circuit: the second membership test only
runs when `"tool"` is present), then `local_config = local_config["tool"]["poetry"]`. -/
def getSection (doc : List (String × TomlVal)) : Except PoetryError TomlVal :=
  match alookupT doc "tool" with
  | none => .error .sectionMissing
  | some tool =>
    if pyIn "poetry" tool then getItem tool "poetry"
    else .error .sectionMissing

/-- Lines 77-79: the aggregate message accumulated over every validation
error, each formatted as two spaces, a dash, the error text and a newline. -/
def invalidMessage (errors : List String) : String :=
  errors.foldl (fun message error => message ++ "  - " ++ error ++ "\n") ""

/-- `Poetry.check` (lines 237-250): schema validation is delegated to the
external `validate_object` (the `validator` parameter); the non-strict path
returns the collected error list. Modelled from the spec: the function's
truncated tail (the strict-mode block and the return of the result mapping,
used by `create` as `check_result["errors"]`) is restored per the spec's
collaborator interface `validate(data, schemaName) -> list[string]`. -/
def check (validator : TomlVal → List String) (config : TomlVal) : List String :=
  validator config

/-! ## Package model builder and `Poetry.create` (lines 63-197) -/

/-- Python iteration over a requirements value yielding names: a string
iterates its characters, a dict its keys. Modelled from the spec for the
list case: requirement entries are dependency-name strings (a non-string
element would fail inside the external `Dependency` constructor, embedded as
`typeError`). -/
def iterNames : TomlVal → Except PoetryError (List String)
  | .str s => .ok (s.toList.map String.singleton)
  | .table kvs => .ok (kvs.map (fun kv => kv.1))
  | .list vs => vs.mapM (fun v =>
      match v with
      | .str s => Except.ok s
      | _ => Except.error PoetryError.typeError)

/-- Lines 83-170 without the validity check: populate the package from the
validated section. `allows` is the black-box python sub-constraint evaluator
for the host Python version (see `decodeDevStep`). License resolution (line
99-104, via the external SPDX table) and the readme path arithmetic are not
modelled beyond storing the raw manifest values. -/
def buildPackage (allows : TomlVal → Bool) (sec : TomlVal) :
    Except PoetryError Package := do
  let nameV ← getItem sec "name"
  let versionV ← getItem sec "version"
  let authorsV ← getItem sec "authors"
  let maintainersV ← dictGet sec "maintainers" (.list [])
  let descriptionV ← dictGet sec "description" (.str "")
  let homepageV ← dictGetNone sec "homepage"
  let repositoryV ← dictGetNone sec "repository"
  let documentationV ← dictGetNone sec "documentation"
  let keywordsV ← dictGet sec "keywords" (.list [])
  let classifiersV ← dictGet sec "classifiers" (.list [])
  let readmeV ← memberThenGet sec "readme"
  let platformV ← memberThenGet sec "platform"
  let pkg : Package :=
    { name := nameV, version := versionV, authors := authorsV,
      maintainers := maintainersV, description := descriptionV,
      homepage := homepageV, repository_url := repositoryV,
      documentation_url := documentationV, keywords := keywordsV,
      classifiers := classifiersV, readme := readmeV, platformVal := platformV }
  let depsOpt ← memberThenGet sec "dependencies"
  let pkg ← match depsOpt with
    | some depsV => do
      let deps ← itemsOf depsV
      pure (addMainDeps pkg deps)
    | none => pure pkg
  let devOpt ← memberThenGet sec "dev-dependencies"
  let pkg ← match devOpt with
    | some devV => do
      let devs ← itemsOf devV
      devs.foldlM (fun p nc => decodeDevEntry allows p nc.1 nc.2) pkg
    | none => pure pkg
  let extrasV ← dictGet sec "extras" (.table [])
  let extrasTbl ← itemsOf extrasV
  let pkg ← extrasTbl.foldlM (fun p e => do
      let reqs ← iterNames e.2
      pure (decodeExtra p e.1 reqs)) pkg
  let buildV ← memberThenGet sec "build"
  let includeV ← memberThenGet sec "include"
  let excludeV ← memberThenGet sec "exclude"
  let packagesV ← memberThenGet sec "packages"
  let urlsV ← memberThenGet sec "urls"
  pure { pkg with buildVal := buildV, includeVal := includeV,
                  excludeVal := excludeV, packagesVal := packagesV,
                  custom_urls := urlsV }

/-- The assembled Project Facade returned by `Poetry.create`: the package
model, the lock directory after migration, and the effective configuration. -/
structure PoetryFacade (Config : Type) where
  package : Package
  lockFs : List (String × String)
  config : Config

/-- `Poetry.create` after the manifest has been located and parsed (`doc` is
the parsed top-level document): extract and validate the `tool.poetry`
section (raising the aggregate invalid-configuration error on any validation
error), build the package model, migrate the lock file and compose the
effective configuration. All-or-nothing: any error yields no facade. -/
def create {Config : Type} (validator : TomlVal → List String)
    (allows : TomlVal → Bool) (emptyConfig : Config)
    (merge : Config → TomlVal → Config) (doc : List (String × TomlVal))
    (lockFs : List (String × String))
    (globalConfigFile localConfigFile authConfigFile : Option TomlVal) :
    Except PoetryError (PoetryFacade Config) :=
  match getSection doc with
  | .error e => .error e
  | .ok sec =>
    match check validator sec with
    | e :: rest =>
      .error (.manifestInvalid
        ("The Poetry configuration is invalid:\n" ++ invalidMessage (e :: rest)))
    | [] =>
      match buildPackage allows sec with
      | .error e => .error e
      | .ok package =>
        .ok { package := package,
              lockFs := migrateLock lockFs,
              config := composeConfig merge emptyConfig
                globalConfigFile localConfigFile authConfigFile }

/-! ## Lemmas about the filesystem model -/

theorem fsLookup_erase_self (fs : List (String × String)) (p : String) :
    fsLookup (fsErase fs p) p = none := by
  induction fs with
  | nil => rfl
  | cons kv rest ih =>
    by_cases h : kv.1 = p
    · simpa [fsErase, h] using ih
    · simpa [fsErase, fsLookup, h] using ih

theorem fsLookup_erase_ne (fs : List (String × String)) (p q : String)
    (h : q ≠ p) : fsLookup (fsErase fs p) q = fsLookup fs q := by
  induction fs with
  | nil => rfl
  | cons kv rest ih =>
    by_cases hk : kv.1 = p
    · simp [fsErase, fsLookup, hk, Ne.symm h, ih]
    · simp [fsErase, fsLookup, hk, ih]

/-- Claim C8: lock-file migration moves the legacy `pyproject.lock` to the
canonical `poetry.lock` exactly when the canonical file does not exist and the
legacy one does; an existing canonical file suppresses any filesystem action
(so it is never overwritten), and the step is idempotent. -/
theorem lock_migration_spec (fs : List (String × String)) :
    (∀ c, fsLookup fs "poetry.lock" = some c → migrateLock fs = fs) ∧
    (fsLookup fs "poetry.lock" = none →
      ∀ c, fsLookup fs "pyproject.lock" = some c →
        fsLookup (migrateLock fs) "poetry.lock" = some c ∧
        fsLookup (migrateLock fs) "pyproject.lock" = none ∧
        ∀ p, p ≠ "poetry.lock" → p ≠ "pyproject.lock" →
          fsLookup (migrateLock fs) p = fsLookup fs p) ∧
    (fsLookup fs "poetry.lock" = none → fsLookup fs "pyproject.lock" = none →
      migrateLock fs = fs) ∧
    migrateLock (migrateLock fs) = migrateLock fs := by
  refine ⟨?_, ?_, ?_, ?_⟩
  · intro c hc
    simp [migrateLock, hc]
  · intro hn c hc
    refine ⟨?_, ?_, ?_⟩
    · simp [migrateLock, hn, hc, fsLookup]
    · simp [migrateLock, hn, hc, fsLookup, fsLookup_erase_self]
    · intro p hp1 hp2
      simp only [migrateLock, hn, hc]
      rw [fsLookup, if_neg (by simpa using Ne.symm hp1)]
      exact fsLookup_erase_ne fs "pyproject.lock" p hp2
  · intro hn hn2
    simp [migrateLock, hn, hn2]
  · cases h1 : fsLookup fs "poetry.lock" with
    | some c => simp [migrateLock, h1]
    | none =>
      cases h2 : fsLookup fs "pyproject.lock" with
      | none => simp [migrateLock, h1, h2]
      | some c =>
        simp [migrateLock, h1, h2, fsLookup]

theorem lock_migration_spec_witness :
    fsLookup (migrateLock [("pyproject.lock", "LOCK")]) "poetry.lock" = some "LOCK" ∧
    fsLookup (migrateLock [("pyproject.lock", "LOCK")]) "pyproject.lock" = none ∧
    migrateLock [("poetry.lock", "NEW"), ("pyproject.lock", "OLD")]
      = [("poetry.lock", "NEW"), ("pyproject.lock", "OLD")] :=
  ⟨((lock_migration_spec [("pyproject.lock", "LOCK")]).2.1 rfl "LOCK" rfl).1,
   ((lock_migration_spec [("pyproject.lock", "LOCK")]).2.1 rfl "LOCK" rfl).2.1,
   (lock_migration_spec [("poetry.lock", "NEW"), ("pyproject.lock", "OLD")]).1 "NEW" rfl⟩

/-- Claim C7: configuration composition overlays, onto the empty
configuration, exactly the sources present on disk, in the fixed order
global settings, project-local settings, global authentication; an absent
file is skipped and never an error (the function is total). -/
theorem config_merge_order {Config : Type} (merge : Config → TomlVal → Config)
    (emptyConfig : Config)
    (globalConfigFile localConfigFile authConfigFile : Option TomlVal) :
    composeConfig merge emptyConfig globalConfigFile localConfigFile authConfigFile =
      ([globalConfigFile, localConfigFile, authConfigFile].filterMap id).foldl
        merge emptyConfig := by
  cases globalConfigFile <;> cases localConfigFile <;> cases authConfigFile <;> rfl

/-- Claim C9: the repository credential resolver fails with
`unsupportedSource` when `url` is absent, with `missingSourceName` when `url`
is present but `name` is absent, and otherwise returns an unauthenticated
handle when no HTTP-basic credentials are stored for the name, or a handle
carrying exactly the stored username/password pair when they are. -/
theorem legacy_repository_credentials
    (httpBasic : List (String × (String × String)))
    (source : List (String × String)) :
    (alookupS source "url" = none →
      create_legacy_repository httpBasic source = .error .unsupportedSource) ∧
    (∀ url, alookupS source "url" = some url → alookupS source "name" = none →
      create_legacy_repository httpBasic source = .error .missingSourceName) ∧
    (∀ url name, alookupS source "url" = some url →
      alookupS source "name" = some name →
      (get_http_basic_auth httpBasic name = none →
        create_legacy_repository httpBasic source =
          .ok { name := name, url := url, auth := none }) ∧
      (∀ username password,
        get_http_basic_auth httpBasic name = some (username, password) →
        create_legacy_repository httpBasic source =
          .ok { name := name, url := url,
                auth := some { url := url, username := username,
                               password := password } })) := by
  refine ⟨?_, ?_, ?_⟩
  · intro h
    simp [create_legacy_repository, h]
  · intro url hu hn
    simp [create_legacy_repository, hu, hn]
  · intro url name hu hn
    refine ⟨?_, ?_⟩
    · intro hc
      simp [create_legacy_repository, hu, hn, hc]
    · intro username password hc
      simp [create_legacy_repository, hu, hn, hc]

theorem legacy_repository_credentials_witness :
    create_legacy_repository [] [("name", "private"), ("url", "https://x")] =
      .ok { name := "private", url := "https://x", auth := none } ∧
    create_legacy_repository [("private", ("u", "p"))]
        [("name", "private"), ("url", "https://x")] =
      .ok { name := "private", url := "https://x",
            auth := some { url := "https://x", username := "u", password := "p" } } ∧
    create_legacy_repository [] [] = .error .unsupportedSource ∧
    create_legacy_repository [] [("url", "https://x")] =
      .error .missingSourceName :=
  ⟨((legacy_repository_credentials [] [("name", "private"), ("url", "https://x")]).2.2
      "https://x" "private" rfl rfl).1 rfl,
   ((legacy_repository_credentials [("private", ("u", "p"))]
      [("name", "private"), ("url", "https://x")]).2.2
      "https://x" "private" rfl rfl).2 "u" "p" rfl,
   (legacy_repository_credentials [] []).1 rfl,
   (legacy_repository_credentials [] [("url", "https://x")]).2.1 "https://x" rfl rfl⟩

/-- Claim C10: a descriptor lacking both `url` and `name` fails with
`unsupportedSource`, never `missingSourceName`: the `url` check comes first,
and the missing-name error can only arise when a `url` is present. -/
theorem url_checked_before_name (httpBasic : List (String × (String × String)))
    (source : List (String × String)) :
    (alookupS source "url" = none → alookupS source "name" = none →
      create_legacy_repository httpBasic source = .error .unsupportedSource) ∧
    (create_legacy_repository httpBasic source = .error .missingSourceName →
      (alookupS source "url").isSome = true) := by
  constructor
  · intro h _
    simp [create_legacy_repository, h]
  · intro h
    cases hu : alookupS source "url" with
    | none => simp [create_legacy_repository, hu] at h
    | some u => rfl

theorem url_checked_before_name_witness :
    create_legacy_repository [] [("some", "junk")] = .error .unsupportedSource :=
  (url_checked_before_name [] [("some", "junk")]).1 rfl rfl

/-! ## Main dependency table: claim C2 -/

theorem foldl_addDependency (name category : String) (cs : List TomlVal) :
    ∀ pkg : Package,
      cs.foldl (fun p c => addDependency p name c category) pkg =
        { pkg with requires := (pkg.requires ++
            cs.map (fun c => ⟨name, c, category, []⟩)) } := by
  induction cs with
  | nil => intro pkg; simp [addDependency]
  | cons c rest ih =>
    intro pkg
    rw [List.foldl_cons, ih]
    simp [addDependency, List.append_assoc]

/-- Claim C2: a `dependencies` entry whose name is case-insensitively
`python` only records its constraint as the package's Python-version
requirement and adds no Dependency; any other entry adds to `requires`
exactly one `"main"` Dependency per expanded constraint (one for a scalar,
`k` of the same name for a list of length `k`), touching nothing else. -/
theorem main_dependency_decode (pkg : Package) (name : String) (c : TomlVal) :
    (lowerStr name = "python" →
      decodeMainEntry pkg (name, c) = { pkg with python_versions := some c }) ∧
    (lowerStr name ≠ "python" →
      decodeMainEntry pkg (name, c) =
        { pkg with requires := (pkg.requires ++
            (constraintList c).map (fun x => ⟨name, x, "main", []⟩)) }) := by
  constructor
  · intro h
    simp [decodeMainEntry, h]
  · intro h
    cases c with
    | str s => simp [decodeMainEntry, h, constraintList, addDependency]
    | list cs => simp [decodeMainEntry, h, constraintList, foldl_addDependency]
    | table kvs => simp [decodeMainEntry, h, constraintList, addDependency]

theorem main_dependency_decode_witness :
    decodeMainEntry {} ("Python", .str "^3.6") =
      { python_versions := some (.str "^3.6") } ∧
    decodeMainEntry {} ("foo", .str "^1.0") =
      { requires := [⟨"foo", .str "^1.0", "main", []⟩] } ∧
    decodeMainEntry {} ("bar", .list [.str "a", .str "b"]) =
      { requires := [⟨"bar", .str "a", "main", []⟩,
                     ⟨"bar", .str "b", "main", []⟩] } :=
  ⟨(main_dependency_decode {} "Python" (.str "^3.6")).1 rfl,
   (main_dependency_decode {} "foo" (.str "^1.0")).2 (by decide),
   (main_dependency_decode {} "bar" (.list [.str "a", .str "b"])).2 (by decide)⟩

/-! ## Section extraction: claim C5 -/

theorem alookupT_none_any (kvs : List (String × TomlVal)) (key : String)
    (h : alookupT kvs key = none) :
    kvs.any (fun kv => kv.1 == key) = false := by
  induction kvs with
  | nil => rfl
  | cons kv rest ih =>
    by_cases hk : kv.1 = key
    · simp [alookupT, hk] at h
    · rw [alookupT, if_neg (by simpa using hk)] at h
      simp [hk, ih h]

theorem getSection_missing (doc : List (String × TomlVal))
    (h : alookupT doc "tool" = none ∨
      ∃ t, alookupT doc "tool" = some (.table t) ∧ alookupT t "poetry" = none) :
    getSection doc = .error .sectionMissing := by
  rcases h with h | ⟨t, h1, h2⟩
  · simp [getSection, h]
  · simp [getSection, h1, pyIn, alookupT_none_any t "poetry" h2]

/-- Claim C5: a manifest whose top level has no `tool` key, or a `tool` table
without a `poetry` key, makes building fail with the missing-section error;
no package is constructed (`create` returns the bare error). -/
theorem missing_section_fails {Config : Type} (validator : TomlVal → List String)
    (allows : TomlVal → Bool) (emptyConfig : Config)
    (merge : Config → TomlVal → Config) (doc : List (String × TomlVal))
    (lockFs : List (String × String)) (g l a : Option TomlVal)
    (h : alookupT doc "tool" = none ∨
      ∃ t, alookupT doc "tool" = some (.table t) ∧ alookupT t "poetry" = none) :
    create validator allows emptyConfig merge doc lockFs g l a =
      .error .sectionMissing := by
  simp [create, getSection_missing doc h]

theorem missing_section_fails_witness :
    create (fun _ => []) (fun _ => true) () (fun c _ => c)
      [("other", .str "x")] [] none none none = .error .sectionMissing ∧
    create (fun _ => []) (fun _ => true) () (fun c _ => c)
      [("tool", .table [("name", .str "y")])] [] none none none =
      .error .sectionMissing :=
  ⟨missing_section_fails (fun _ => []) (fun _ => true) () (fun c _ => c)
      [("other", .str "x")] [] none none none (Or.inl rfl),
   missing_section_fails (fun _ => []) (fun _ => true) () (fun c _ => c)
      [("tool", .table [("name", .str "y")])] [] none none none
      (Or.inr ⟨[("name", .str "y")], rfl, rfl⟩)⟩

/-! ## Validation aggregation: claim C4 -/

/-- Specification-side right-recursive rendering of the error list: one
bulleted line per validation error, in declared order. -/
def bulletList : List String → String
  | [] => ""
  | e :: rest => "  - " ++ e ++ "\n" ++ bulletList rest

theorem invalidMessage_eq (errors : List String) :
    invalidMessage errors = bulletList errors := by
  suffices h : ∀ (l : List String) (acc : String),
      l.foldl (fun message error => message ++ "  - " ++ error ++ "\n") acc =
        acc ++ bulletList l by
    simpa [invalidMessage] using h errors ""
  intro l
  induction l with
  | nil => intro acc; simp [bulletList]
  | cons e rest ih =>
    intro acc
    rw [List.foldl_cons, ih, bulletList]
    simp [String.append_assoc]

/-- Claim C4: when schema validation returns a non-empty error list, building
fails with the aggregate invalid-configuration error whose message bullets
every validation error in order (not merely the first), before any package
field is read (the statement holds for every document with a section, even
one lacking `name`), and no facade is returned. -/
theorem validation_errors_aggregated {Config : Type}
    (validator : TomlVal → List String) (allows : TomlVal → Bool)
    (emptyConfig : Config) (merge : Config → TomlVal → Config)
    (doc : List (String × TomlVal)) (lockFs : List (String × String))
    (g l a : Option TomlVal) (sec : TomlVal)
    (hsec : getSection doc = .ok sec) (herr : validator sec ≠ []) :
    create validator allows emptyConfig merge doc lockFs g l a =
      .error (.manifestInvalid ("The Poetry configuration is invalid:\n" ++
        bulletList (validator sec))) := by
  cases h : validator sec with
  | nil => exact absurd h herr
  | cons e rest =>
    simp [create, hsec, check, h, invalidMessage_eq]

theorem validation_errors_aggregated_witness :
    create (fun _ => ["error one", "error two"]) (fun _ => true) ()
      (fun c _ => c) [("tool", .table [("poetry", .table [])])] []
      none none none =
      .error (.manifestInvalid
        "The Poetry configuration is invalid:\n  - error one\n  - error two\n") :=
  validation_errors_aggregated (fun _ => ["error one", "error two"])
    (fun _ => true) () (fun c _ => c) [("tool", .table [("poetry", .table [])])]
    [] none none none (.table []) rfl (by decide)

/-! ## Manifest locator: claim C6 -/

theorem candidates_length (cwd : List String) :
    (candidates cwd).length = cwd.length + 1 := by
  induction cwd with
  | nil => rfl
  | cons a rest ih => simp [candidates, ih]

/-- The `k`-th examined directory is the starting directory with its last `k`
components removed: child-to-root order, ending at the root. -/
theorem candidates_getElem (cwd : List String) :
    ∀ k, k ≤ cwd.length →
      (candidates cwd)[k]? = some (cwd.take (cwd.length - k)) := by
  induction cwd with
  | nil =>
    intro k hk
    have : k = 0 := Nat.le_zero.mp hk
    subst this
    rfl
  | cons a rest ih =>
    intro k hk
    rw [candidates]
    by_cases hlt : k ≤ rest.length
    · rw [List.getElem?_append_left
        (by rw [List.length_map, candidates_length]; omega)]
      rw [List.getElem?_map, ih k hlt]
      have hs : rest.length + 1 - k = (rest.length - k) + 1 := by omega
      simp [List.length_cons, hs, List.take_succ_cons]
    · have hk' : k = rest.length + 1 := by
        simp only [List.length_cons] at hk; omega
      subst hk'
      rw [List.getElem?_append_right
        (by rw [List.length_map, candidates_length])]
      simp [List.length_map, candidates_length]

theorem locateLoop_spec (fs : List (List String)) (cs : List (List String)) :
    (∀ d, cs.find? (fun p => decide ((p ++ [manifestName]) ∈ fs)) = some d →
      locateLoop fs cs = .ok (d ++ [manifestName])) ∧
    (cs.find? (fun p => decide ((p ++ [manifestName]) ∈ fs)) = none →
      locateLoop fs cs = .error .manifestNotFound) := by
  induction cs with
  | nil => exact ⟨fun d h => by simp at h, fun _ => rfl⟩
  | cons p rest ih =>
    by_cases hp : (p ++ [manifestName]) ∈ fs
    · constructor
      · intro d h
        rw [List.find?_cons_of_pos rest (by simpa using hp)] at h
        cases h
        simp [locateLoop, hp]
      · intro h
        rw [List.find?_cons_of_pos rest (by simpa using hp)] at h
        cases h
    · constructor
      · intro d h
        rw [List.find?_cons_of_neg rest (by simpa using hp)] at h
        rw [locateLoop, if_neg hp]
        exact ih.1 d h
      · intro h
        rw [List.find?_cons_of_neg rest (by simpa using hp)] at h
        rw [locateLoop, if_neg hp]
        exact ih.2 h

/-- Claim C6: the locator examines the starting directory and then each
ancestor in strictly child-to-root order (the `k`-th candidate is the start
with its last `k` components removed, down to the root), returns the manifest
path in the first directory containing the fixed filename, and fails with
the not-found error when no candidate contains it. -/
theorem locate_first_hit (fs : List (List String)) (cwd : List String) :
    (candidates cwd).length = cwd.length + 1 ∧
    (∀ k, k ≤ cwd.length →
      (candidates cwd)[k]? = some (cwd.take (cwd.length - k))) ∧
    (∀ d, (candidates cwd).find?
        (fun p => decide ((p ++ [manifestName]) ∈ fs)) = some d →
      locate fs cwd = .ok (d ++ [manifestName])) ∧
    ((candidates cwd).find?
        (fun p => decide ((p ++ [manifestName]) ∈ fs)) = none →
      locate fs cwd = .error .manifestNotFound) :=
  ⟨candidates_length cwd, candidates_getElem cwd,
   fun d h => (locateLoop_spec fs (candidates cwd)).1 d h,
   fun h => (locateLoop_spec fs (candidates cwd)).2 h⟩

theorem locate_first_hit_witness :
    locate [["a", "pyproject.toml"], ["a", "b", "x", "pyproject.toml"]]
      ["a", "b"] = .ok ["a", "pyproject.toml"] ∧
    (candidates ["a", "b"])[1]? = some ["a"] ∧
    locate [] ["a", "b"] = .error .manifestNotFound :=
  ⟨(locate_first_hit [["a", "pyproject.toml"], ["a", "b", "x", "pyproject.toml"]]
      ["a", "b"]).2.2.1 ["a"] (by decide),
   (locate_first_hit [] ["a", "b"]).2.1 1 (by decide),
   (locate_first_hit [] ["a", "b"]).2.2.2 (by decide)⟩

/-! ## Dev dependencies: claim C3 -/

theorem alookupT_some_any (kvs : List (String × TomlVal)) (key : String)
    (v : TomlVal) (h : alookupT kvs key = some v) :
    kvs.any (fun kv => kv.1 == key) = true := by
  induction kvs with
  | nil => simp [alookupT] at h
  | cons kv rest ih =>
    by_cases hk : kv.1 = key
    · simp [hk]
    · rw [alookupT, if_neg (by simpa using hk)] at h
      simp [hk, ih h]

theorem decodeDevStep_table_keep (allows : TomlVal → Bool) (name : String)
    (p : Package) (kvs : List (String × TomlVal)) (v : TomlVal)
    (hpy : alookupT kvs "python" = some v) (hal : allows v = true) :
    decodeDevStep allows name p (.table kvs) =
      .ok (addDependency p name (.table kvs) "dev") := by
  simp [decodeDevStep, pyIn, alookupT_some_any kvs "python" v hpy, getItem,
    hpy, hal]

theorem decodeDevStep_table_skip (allows : TomlVal → Bool) (name : String)
    (p : Package) (kvs : List (String × TomlVal)) (v : TomlVal)
    (hpy : alookupT kvs "python" = some v) (hal : allows v = false) :
    decodeDevStep allows name p (.table kvs) = .ok p := by
  simp [decodeDevStep, pyIn, alookupT_some_any kvs "python" v hpy, getItem,
    hpy, hal]

theorem decodeDevStep_table_none (allows : TomlVal → Bool) (name : String)
    (p : Package) (kvs : List (String × TomlVal))
    (hpy : alookupT kvs "python" = none) :
    decodeDevStep allows name p (.table kvs) =
      .ok (addDependency p name (.table kvs) "dev") := by
  simp [decodeDevStep, pyIn, alookupT_none_any kvs "python" hpy]

theorem decodeDevStep_not_python (allows : TomlVal → Bool) (name : String)
    (p : Package) (x : TomlVal) (hx : pyIn "python" x = false) :
    decodeDevStep allows name p x = .ok (addDependency p name x "dev") := by
  simp [decodeDevStep, hx]

/-- Claim C3 (amended): a dev-dependency entry each of whose expanded
constraints is a table, or a non-table not containing `"python"` in Python's
`in` sense, is decoded as follows: a table carrying a `python` key survives
exactly when the evaluator accepts its sub-constraint for the host Python
version, a rejected one is silently skipped, and every other constraint is
added as a Dependency with category `"dev"`. (The original claim fails on a
scalar string constraint containing the substring `python`, see the
counterexample.) -/
theorem dev_dependency_filter (allows : TomlVal → Bool) (pkg : Package)
    (name : String) (c : TomlVal)
    (h : ∀ x ∈ constraintList c, devElemOk x = true) :
    decodeDevEntry allows pkg name c =
      .ok { pkg with requires := (pkg.requires ++
        ((constraintList c).filter (devKeeps allows)).map
          (fun x => ⟨name, x, "dev", []⟩)) } := by
  rw [decodeDevEntry]
  suffices hl : ∀ (cs : List TomlVal) (p : Package),
      (∀ x ∈ cs, devElemOk x = true) →
      devLoop allows name p cs =
        .ok { p with requires := (p.requires ++
          (cs.filter (devKeeps allows)).map (fun x => ⟨name, x, "dev", []⟩)) } by
    exact hl (constraintList c) pkg h
  intro cs
  induction cs with
  | nil =>
    intro p _
    simp [devLoop]
  | cons x rest ih =>
    intro p hx
    have hxo : devElemOk x = true := hx x (by simp)
    have hrest : ∀ y ∈ rest, devElemOk y = true := fun y hy => hx y (by simp [hy])
    cases x with
    | table kvs =>
      cases hpy : alookupT kvs "python" with
      | some v =>
        cases hal : allows v with
        | true =>
          simp only [devLoop,
            decodeDevStep_table_keep allows name p kvs v hpy hal]
          rw [ih (addDependency p name (.table kvs) "dev") hrest]
          simp [addDependency, devKeeps, hpy, hal, List.append_assoc]
        | false =>
          simp only [devLoop,
            decodeDevStep_table_skip allows name p kvs v hpy hal]
          rw [ih p hrest]
          simp [devKeeps, hpy, hal]
      | none =>
        simp only [devLoop, decodeDevStep_table_none allows name p kvs hpy]
        rw [ih (addDependency p name (.table kvs) "dev") hrest]
        simp [addDependency, devKeeps, hpy, List.append_assoc]
    | str s =>
      have hps : pyIn "python" (.str s) = false := by
        simpa [devElemOk] using hxo
      simp only [devLoop, decodeDevStep_not_python allows name p (.str s) hps]
      rw [ih (addDependency p name (.str s) "dev") hrest]
      simp [addDependency, devKeeps, List.append_assoc]
    | list vs =>
      have hps : pyIn "python" (.list vs) = false := by
        simpa [devElemOk] using hxo
      simp only [devLoop, decodeDevStep_not_python allows name p (.list vs) hps]
      rw [ih (addDependency p name (.list vs) "dev") hrest]
      simp [addDependency, devKeeps, List.append_assoc]

theorem dev_dependency_filter_witness :
    decodeDevEntry (fun v => match v with | .str s => s == "<3.0" | _ => false)
      {} "pytest" (.table [("python", .str "<3.0"), ("version", .str "^1")]) =
      .ok { requires := [⟨"pytest",
        .table [("python", .str "<3.0"), ("version", .str "^1")], "dev", []⟩] } ∧
    decodeDevEntry (fun _ => false) {} "pytest"
      (.table [("python", .str "<3.0")]) = .ok {} ∧
    decodeDevEntry (fun _ => false) {} "simple" (.str "^2.0") =
      .ok { requires := [⟨"simple", .str "^2.0", "dev", []⟩] } :=
  ⟨dev_dependency_filter
      (fun v => match v with | .str s => s == "<3.0" | _ => false) {} "pytest"
      (.table [("python", .str "<3.0"), ("version", .str "^1")]) (by decide),
   dev_dependency_filter (fun _ => false) {} "pytest"
      (.table [("python", .str "<3.0")]) (by decide),
   dev_dependency_filter (fun _ => false) {} "simple" (.str "^2.0") (by decide)⟩

/-- Claim C3 counterexample: the dev-dependency entry `foo` with the scalar
string constraint `"python"` carries no embedded python sub-constraint, is
not filtered by any evaluation (the evaluator here accepts everything), yet
is never added with category `"dev"`: `'python' in _constraint` is substring
containment on a string, and the subsequent string indexing raises a
`TypeError`, so building fails instead. -/
theorem dev_python_substring_cex :
    decodeDevEntry (fun _ => true) {} "foo" (TomlVal.str "python") =
      .error .typeError ∧
    pyIn "python" (TomlVal.str "python") = true :=
  ⟨rfl, rfl⟩

/-! ## Extras: claim C1 -/

theorem enrichFrom_nil (e : String) :
    ∀ (l : List Dependency) (i : Nat), enrichFrom e [] i l = l := by
  intro l
  induction l with
  | nil => intro i; rfl
  | cons d rest ih =>
    intro i
    simp [enrichFrom, ih]

theorem findMatchIdx_enrichFrom (e : String) (idxs : List Nat) (r : String) :
    ∀ (l : List Dependency) (i : Nat),
      findMatchIdx (enrichFrom e idxs i l) r = findMatchIdx l r := by
  intro l
  induction l with
  | nil => intro i; rfl
  | cons d rest ih =>
    intro i
    simp [enrichFrom, findMatchIdx, ih]

theorem findMatchIdx_lt (r : String) : ∀ (l : List Dependency) (j : Nat),
    findMatchIdx l r = some j → j < l.length := by
  intro l
  induction l with
  | nil => intro j h; simp [findMatchIdx] at h
  | cons d rest ih =>
    intro j h
    rw [findMatchIdx] at h
    by_cases hd : (d.name == r) = true
    · rw [if_pos hd] at h
      cases h
      simp
    · rw [if_neg hd] at h
      cases hj : findMatchIdx rest r with
      | none => rw [hj] at h; simp at h
      | some j' =>
        rw [hj] at h
        simp at h
        have := ih j' hj
        simp only [List.length_cons]
        omega

theorem enrichFrom_append_lt (e : String) (idxs : List Nat) (m : Nat) :
    ∀ (l : List Dependency) (i : Nat), m < i →
      enrichFrom e (idxs ++ [m]) i l = enrichFrom e idxs i l := by
  intro l
  induction l with
  | nil => intro i _; rfl
  | cons d rest ih =>
    intro i hm
    have hne : ¬(m = i) := by omega
    simp [enrichFrom, List.count_append, List.count_cons, hne,
      ih (i + 1) (by omega)]

theorem modifyIdx_enrichFrom (e : String) (idxs : List Nat) :
    ∀ (l : List Dependency) (i j : Nat), j < l.length →
      modifyIdx (enrichFrom e idxs i l) j
          (fun d => { d with in_extras := d.in_extras ++ [e] }) =
        enrichFrom e (idxs ++ [i + j]) i l := by
  intro l
  induction l with
  | nil => intro i j hj; simp at hj
  | cons d rest ih =>
    intro i j hj
    cases j with
    | zero =>
      have hc : (idxs ++ [i + 0]).count i = idxs.count i + 1 := by
        simp [List.count_append, List.count_cons]
      rw [enrichFrom, enrichFrom, modifyIdx, hc,
        enrichFrom_append_lt e idxs (i + 0) rest (i + 1) (by omega)]
      simp [List.replicate_succ', List.append_assoc]
    | succ j' =>
      have hc : (idxs ++ [i + (j' + 1)]).count i = idxs.count i := by
        have hne : ¬(i + (j' + 1) = i) := by omega
        simp [List.count_append, List.count_cons, hne]
      rw [enrichFrom, enrichFrom, modifyIdx, hc]
      have harg : i + (j' + 1) = (i + 1) + j' := by omega
      rw [harg, ih (i + 1) j' (by simpa using hj)]

theorem setExtra_fresh (extras : List (String × List Nat)) (extraName : String)
    (h : ∀ kv ∈ extras, kv.1 ≠ extraName) :
    setExtra extras extraName = extras ++ [(extraName, [])] := by
  have hany : extras.any (fun e => e.1 == extraName) = false := by
    rw [List.any_eq_false]
    intro x hx
    simpa using h x hx
  simp [setExtra, hany]

theorem appendExtra_skip (extraName : String) (i : Nat) :
    ∀ E : List (String × List Nat), (∀ kv ∈ E, kv.1 ≠ extraName) →
      E.map (fun e => if e.1 == extraName then (e.1, e.2 ++ [i]) else e) = E := by
  intro E
  induction E with
  | nil => intro _; rfl
  | cons kv rest ih =>
    intro hE
    have h1 : ¬(kv.1 = extraName) := hE kv (by simp)
    rw [List.map_cons, ih (fun x hx => hE x (by simp [hx])),
      if_neg (by simpa using h1)]

theorem appendExtra_fresh (extraName : String) (idxs0 : List Nat) (i : Nat)
    (E : List (String × List Nat)) (hE : ∀ kv ∈ E, kv.1 ≠ extraName) :
    appendExtra (E ++ [(extraName, idxs0)]) extraName i =
      E ++ [(extraName, idxs0 ++ [i])] := by
  rw [appendExtra, List.map_append, appendExtra_skip extraName i E hE]
  simp

theorem decodeExtra_loop (extraName : String) (orig : List Dependency)
    (E0 : List (String × List Nat)) (hE0 : ∀ kv ∈ E0, kv.1 ≠ extraName) :
    ∀ (reqs : List String) (p : Package) (idxs0 : List Nat),
      p.requires = enrichFrom extraName idxs0 0 orig →
      p.extras = E0 ++ [(extraName, idxs0)] →
      reqs.foldl (decodeOneReq extraName) p =
        { p with
          requires :=
            enrichFrom extraName (idxs0 ++ matchedIdxs orig reqs) 0 orig,
          extras := E0 ++ [(extraName, idxs0 ++ matchedIdxs orig reqs)] } := by
  intro reqs
  induction reqs with
  | nil =>
    intro p idxs0 hreq hex
    simp [matchedIdxs, ← hreq, ← hex]
  | cons r rest ih =>
    intro p idxs0 hreq hex
    rw [List.foldl_cons]
    cases hm : findMatchIdx orig r with
    | none =>
      have hm' : findMatchIdx p.requires r = none := by
        rw [hreq, findMatchIdx_enrichFrom]; exact hm
      rw [decodeOneReq, hm', ih p idxs0 hreq hex]
      simp [matchedIdxs, List.filterMap_cons, hm]
    | some j =>
      have hm' : findMatchIdx p.requires r = some j := by
        rw [hreq, findMatchIdx_enrichFrom]; exact hm
      have hj : j < orig.length := findMatchIdx_lt r orig j hm
      rw [decodeOneReq, hm']
      rw [ih { p with
          requires := modifyIdx p.requires j
            (fun d => { d with in_extras := d.in_extras ++ [extraName] }),
          extras := appendExtra p.extras extraName j }
        (idxs0 ++ [j])
        (by
          simp only [hreq]
          have := modifyIdx_enrichFrom extraName idxs0 orig 0 j hj
          simpa using this)
        (by
          simp only [hex]
          exact appendExtra_fresh extraName idxs0 j E0 hE0)]
      simp [matchedIdxs, List.filterMap_cons, hm, List.append_assoc]

/-- Claim C1 (amended): for each extra name and its ordered list of
requirement names, building initializes the extra's list and then, for each
listed name, appends the extra's name to the `in_extras` of only the first
Dependency of `requires` with that exact name and appends only that first
match to the extra's list (the inner loop breaks at the first match),
preserving declared order; a listed name with no match contributes nothing,
so the extra's list stays empty when no listed name matches. (The original
claim's `every matching Dependency` fails when `requires` holds two
dependencies of the same name, see the counterexample.) -/
theorem extras_first_match (pkg : Package) (extraName : String)
    (reqs : List String) (hfresh : ∀ kv ∈ pkg.extras, kv.1 ≠ extraName) :
    decodeExtra pkg extraName reqs =
      { pkg with
        requires :=
          enrichFrom extraName (matchedIdxs pkg.requires reqs) 0 pkg.requires,
        extras := pkg.extras ++ [(extraName, matchedIdxs pkg.requires reqs)] } := by
  rw [decodeExtra]
  have h0 := decodeExtra_loop extraName pkg.requires pkg.extras hfresh reqs
    { pkg with extras := setExtra pkg.extras extraName } []
    (by simp [enrichFrom_nil])
    (by simp [setExtra_fresh pkg.extras extraName hfresh])
  simpa using h0

theorem extras_first_match_witness :
    decodeExtra { requires := [⟨"foo", .str "*", "main", []⟩] }
        "feature" ["foo"] =
      { requires := [⟨"foo", .str "*", "main", ["feature"]⟩],
        extras := [("feature", [0])] } ∧
    decodeExtra { requires := [⟨"foo", .str "*", "main", []⟩] }
        "feature" ["missing"] =
      { requires := [⟨"foo", .str "*", "main", []⟩],
        extras := [("feature", [])] } :=
  ⟨extras_first_match { requires := [⟨"foo", .str "*", "main", []⟩] }
      "feature" ["foo"] (by simp),
   extras_first_match { requires := [⟨"foo", .str "*", "main", []⟩] }
      "feature" ["missing"] (by simp)⟩

/-- Claim C1 counterexample: with `dependencies` entry
`foo = ["^1.0", "^2.0"]` (two Dependencies named `foo` in `requires`) and
`extras = ("feature", ["foo"])`, building appends `"feature"` to the
`in_extras` of only the first `foo` Dependency — the second keeps `in_extras
= []` — and the extra's list holds exactly one dependency (index `0`), not
both, because the matching loop breaks at the first hit; the claim demanded
every matching Dependency be updated and appended. -/
theorem extras_break_cex :
    ((decodeExtras (addMainDeps {} [("foo", .list [.str "^1.0", .str "^2.0"])])
        [("feature", ["foo"])]).requires.map
          (fun d => (d.name, d.in_extras)) =
      [("foo", ["feature"]), ("foo", [])]) ∧
    (decodeExtras (addMainDeps {} [("foo", .list [.str "^1.0", .str "^2.0"])])
        [("feature", ["foo"])]).extras = [("feature", [0])] :=
  ⟨rfl, rfl⟩

end PoetrySpec

